import Mathlib

/-!
Verification development for `analyze_latency.py` (YCSB dynamic load latency
analysis tool).  The Python source is shallowly embedded: the two fixed
regular expressions are modelled by explicit character-list scanners
(their character classes are the ASCII fragments of Python's `\d`, `\s`,
`\w`, which is what the tool's log format uses), `int()` / `float()` by
partial conversion functions returning `Option` (floats are modelled by
exact rationals), and the run loop / main entry point by pure functions
over an explicit list of run outcomes together with an event trace.
-/

namespace AnalyzeLatency

/-- ASCII fragment of Python's `\s` class (`' '`, `\t`, `\n`, `\r`, `\x0b`, `\x0c`). -/
def pyIsSpace (c : Char) : Bool :=
  c = ' ' || c = '\t' || c = '\n' || c = '\r' || c = '\x0b' || c = '\x0c'

/-- ASCII fragment of Python's `\w` class: letters, digits, underscore. -/
def pyIsWord (c : Char) : Bool :=
  c.isAlpha || c.isDigit || c = '_'

/-- The character class `[\d.]`: a decimal digit or a dot. -/
def isDigitDot (c : Char) : Bool :=
  c.isDigit || c = '.'

/-- Match a literal string at the head of the input, returning the rest. -/
def matchLiteral : List Char → List Char → Option (List Char)
  | [], s => some s
  | _, [] => none
  | l :: ls, c :: cs => if c = l then matchLiteral ls cs else none

/-- Attempt to match the regular expression
`\[UPDATE\],\s*(\d+),\s*([\d.]+)` at the head of `s`
(line 58 of `analyze_latency.py`).  Returns the two captured groups and the
remaining input after the match.  Since `\s`, `\d` and `[\d.]` are pairwise
disjoint from the characters that follow them in the pattern, the greedy
backtracking semantics of the regex coincides with maximal munch
(`dropWhile` / `takeWhile`). -/
def matchUpdateAt (s : List Char) : Option ((List Char × List Char) × List Char) :=
  match matchLiteral "[UPDATE],".toList s with
  | none => none
  | some s0 =>
    let s1 := s0.dropWhile pyIsSpace
    let ts := s1.takeWhile Char.isDigit
    if ts = [] then none
    else
      match s1.dropWhile Char.isDigit with
      | ',' :: s3 =>
        let s4 := s3.dropWhile pyIsSpace
        let lat := s4.takeWhile isDigitDot
        if lat = [] then none
        else some ((ts, lat), s4.dropWhile isDigitDot)
      | _ => none

/-- One scanning pass of `re.findall` for the UPDATE pattern, with explicit
fuel (each step consumes at least one character, so fuel `s.length`
suffices; see `findallUpdate`).  At each position the pattern is tried;
on a match the scan resumes after the match, otherwise one character ahead,
exactly as `re.findall` does for a pattern that cannot match the empty
string. -/
def findallUpdateAux : Nat → List Char → List (List Char × List Char)
  | 0, _ => []
  | _, [] => []
  | fuel + 1, c :: cs =>
    match matchUpdateAt (c :: cs) with
    | some (g, rest) => g :: findallUpdateAux fuel rest
    | none => findallUpdateAux fuel cs

/-- Model of `re.findall(r'\[UPDATE\],\s*(\d+),\s*([\d.]+)', s)`. -/
def findallUpdate (s : List Char) : List (List Char × List Char) :=
  findallUpdateAux s.length s

/-- Attempt to match
`Phase:\s*(\w+),\s*Throughput:\s*([\d.]+)\s*ops/sec,\s*Elapsed:\s*(\d+)ms`
at the head of `s` (line 78 of `analyze_latency.py`), returning the three
captured groups and the rest of the input.  As for the UPDATE pattern, every
quantified class is disjoint from the character that follows it, so maximal
munch is exact. -/
def matchPhaseAt (s : List Char) : Option ((List Char × List Char × List Char) × List Char) :=
  match matchLiteral "Phase:".toList s with
  | none => none
  | some s0 =>
    let s1 := s0.dropWhile pyIsSpace
    let nm := s1.takeWhile pyIsWord
    if nm = [] then none
    else
      match s1.dropWhile pyIsWord with
      | ',' :: s3 =>
        let s4 := s3.dropWhile pyIsSpace
        match matchLiteral "Throughput:".toList s4 with
        | none => none
        | some s5 =>
          let s6 := s5.dropWhile pyIsSpace
          let thr := s6.takeWhile isDigitDot
          if thr = [] then none
          else
            let s7 := (s6.dropWhile isDigitDot).dropWhile pyIsSpace
            match matchLiteral "ops/sec,".toList s7 with
            | none => none
            | some s8 =>
              let s9 := s8.dropWhile pyIsSpace
              match matchLiteral "Elapsed:".toList s9 with
              | none => none
              | some s10 =>
                let s11 := s10.dropWhile pyIsSpace
                let el := s11.takeWhile Char.isDigit
                if el = [] then none
                else
                  match matchLiteral "ms".toList (s11.dropWhile Char.isDigit) with
                  | none => none
                  | some s13 => some ((nm, thr, el), s13)
      | _ => none

/-- Fueled scanning pass of `re.findall` for the phase pattern. -/
def findallPhaseAux : Nat → List Char → List (List Char × List Char × List Char)
  | 0, _ => []
  | _, [] => []
  | fuel + 1, c :: cs =>
    match matchPhaseAt (c :: cs) with
    | some (g, rest) => g :: findallPhaseAux fuel rest
    | none => findallPhaseAux fuel cs

/-- Model of `re.findall` for the phase pattern. -/
def findallPhase (s : List Char) : List (List Char × List Char × List Char) :=
  findallPhaseAux s.length s

/-- Numeric value of a list of decimal digit characters. -/
def digitsToNat (l : List Char) : Nat :=
  l.foldl (fun a c => 10 * a + (c.toNat - 48)) 0

/-- Python `int(str)` on the forms that can reach it here: an optional sign
followed by decimal digits (the regex groups fed to it are pure `\d+`
strings; underscore separators and surrounding whitespace are not
modelled).  Fails (`ValueError`) otherwise. -/
def pyInt (s : List Char) : Option Int :=
  match s with
  | [] => none
  | '-' :: rest =>
    if rest ≠ [] ∧ rest.all Char.isDigit then some (-(digitsToNat rest : Int)) else none
  | '+' :: rest =>
    if rest ≠ [] ∧ rest.all Char.isDigit then some ((digitsToNat rest : Int)) else none
  | l => if l.all Char.isDigit then some ((digitsToNat l : Int)) else none

/-- Unsigned part of Python `float(str)` on digit-and-dot strings: it
succeeds exactly when the string has at least one digit and at most one dot
(`float("1.2.3")` and `float(".")` raise `ValueError`).  The value is kept
as an exact rational; IEEE-754 rounding is not modelled. -/
def parseUnsignedFloat (l : List Char) : Option ℚ :=
  if l.all isDigitDot ∧ l.any Char.isDigit ∧ l.count '.' ≤ 1 then
    let ip := l.takeWhile Char.isDigit
    let fp := (l.dropWhile Char.isDigit).drop 1
    some (mkRat ((digitsToNat ip * 10 ^ fp.length + digitsToNat fp : Nat) : Int) (10 ^ fp.length))
  else none

/-- Python `float(str)` on the forms that can reach it here (optionally
signed digit-and-dot strings). -/
def pyFloat (s : List Char) : Option ℚ :=
  match s with
  | '-' :: rest => (parseUnsignedFloat rest).map Neg.neg
  | '+' :: rest => parseUnsignedFloat rest
  | l => parseUnsignedFloat l

/-- The body of the extraction loop of `extract_timeseries_data`
(lines 62-68): `int` on the timestamp group, `float` on the latency group;
a `ValueError` in either conversion skips the record. -/
def convertUpdate (m : List Char × List Char) : Option (Int × ℚ) :=
  match pyInt m.1, pyFloat m.2 with
  | some t, some l => some (t, l)
  | _, _ => none

/-- Python's ordering on `(int, float)` tuples: lexicographic. -/
def pairLe (a b : Int × ℚ) : Prop :=
  a.1 < b.1 ∨ (a.1 = b.1 ∧ a.2 ≤ b.2)

instance (a b : Int × ℚ) : Decidable (pairLe a b) := by
  unfold pairLe; infer_instance

/-- Python `sorted` on a list of `(int, float)` tuples.  `sorted` is a
stable sort under the lexicographic tuple order; since that order is total
and antisymmetric on these values the result is the unique sorted
permutation, which insertion sort also produces. -/
def pySort (l : List (Int × ℚ)) : List (Int × ℚ) :=
  List.insertionSort pairLe l

/-- Model of `YCSBLatencyAnalyzer.extract_timeseries_data` (lines 52-70):
`sorted` applied to the list of converted `findall` matches. -/
def extract_timeseries_data (output : String) : List (Int × ℚ) :=
  pySort ((findallUpdate output.toList).filterMap convertUpdate)

/-- A phase record as built on lines 86-90. -/
structure Phase where
  name : String
  throughput : ℚ
  elapsed : Int
deriving DecidableEq

/-- The body of the extraction loop of `extract_phase_info` (lines 82-92):
`float` on the throughput group, `int` on the elapsed group; a `ValueError`
in either conversion skips the record. -/
def convertPhase (m : List Char × List Char × List Char) : Option Phase :=
  match pyFloat m.2.1, pyInt m.2.2 with
  | some th, some el => some ⟨m.1.asString, th, el⟩
  | _, _ => none

/-- Model of `YCSBLatencyAnalyzer.extract_phase_info` (lines 72-94): the converted
`findall` matches, in match order (no sorting). -/
def extract_phase_info (output : String) : List Phase :=
  (findallPhase output.toList).filterMap convertPhase

/-- What one invocation of the external test script can do, as observed by
`run_single_test`: terminate with a return code, stdout and stderr; exceed
the 300 s timeout; or raise some other exception during invocation. -/
inductive RunOutcome where
  | completed (returncode : Int) (stdout stderr : String)
  | timedOut
  | raised
deriving DecidableEq

/-- Model of `YCSBLatencyAnalyzer.run_single_test` (lines 25-50): the captured
stdout on a zero return code, `None` after logging on a non-zero return
code, a timeout, or any other exception. -/
def run_single_test : RunOutcome → Option String
  | .completed rc out _ => if rc ≠ 0 then none else some out
  | .timedOut => none
  | .raised => none

/-- One entry of `self.results` as appended on lines 111-116.  The
wall-clock `datetime.now().isoformat()` metadata field is not modelled. -/
structure RunResult where
  run_id : Nat
  timeseries : List (Int × ℚ)
  phases : List Phase
deriving DecidableEq

/-- Observable events of the `run_all_tests` loop: invoking run `i`,
logging its completion with a data-point count, logging that it produced no
time-series data, and sleeping between tests. -/
inductive Event where
  | runTest (i : Nat)
  | printedCompleted (i : Nat) (points : Nat)
  | printedNoData (i : Nat)
  | slept (secs : Nat)
deriving DecidableEq

/-- The loop body of `run_all_tests` (lines 100-124) over the remaining
outcomes, where `i` is the current zero-based loop index and `n` the total
`num_runs`.  Mirrors the Python control flow exactly: a `None` output
`continue`s (skipping both extraction and the inter-test sleep); otherwise
the run is appended to `results` only when its time series is non-empty,
and `time.sleep(10)` runs whenever `i < n - 1`. -/
def runAllGo (n : Nat) : Nat → List RunOutcome → List RunResult × List Event
  | _, [] => ([], [])
  | i, oc :: rest =>
    let next := runAllGo n (i + 1) rest
    match run_single_test oc with
    | none => (next.1, Event.runTest i :: next.2)
    | some out =>
      let ts := extract_timeseries_data out
      let ph := extract_phase_info out
      let tail := (if i < n - 1 then [Event.slept 10] else []) ++ next.2
      if ts.isEmpty then
        (next.1, Event.runTest i :: Event.printedNoData i :: tail)
      else
        (⟨i + 1, ts, ph⟩ :: next.1,
         Event.runTest i :: Event.printedCompleted i ts.length :: tail)

/-- Model of `YCSBLatencyAnalyzer.run_all_tests` (lines 96-124), with the outcome of
each of the `num_runs` invocations supplied as a list (`num_runs` is its
length).  Returns the final `self.results` and the event trace. -/
def run_all_tests (outcomes : List RunOutcome) : List RunResult × List Event :=
  runAllGo outcomes.length 0 outcomes

/-- The per-run fragment of the `run_all_tests` event trace (used to state
the shape of the whole trace). -/
def perRunEvents (n : Nat) (p : Nat × RunOutcome) : List Event :=
  match run_single_test p.2 with
  | none => [Event.runTest p.1]
  | some out =>
    let ts := extract_timeseries_data out
    Event.runTest p.1 ::
      (if ts.isEmpty then Event.printedNoData p.1
       else Event.printedCompleted p.1 ts.length) ::
      (if p.1 < n - 1 then [Event.slept 10] else [])

/-- The result entry (if any) that run `i` with outcome `oc` contributes to
`self.results` (used to state the value of the whole results list). -/
def runEntry (i : Nat) (oc : RunOutcome) : Option RunResult :=
  match run_single_test oc with
  | none => none
  | some out =>
    let ts := extract_timeseries_data out
    if ts.isEmpty then none else some ⟨i + 1, ts, extract_phase_info out⟩

/-! ### The aggregation core of `plot_average_latency` (lines 196-213) -/

/-- Appending one latency to the bucket of its timestamp, as
`timestamp_latencies[timestamp].append(latency)` does on lines 200-203;
the dictionary is modelled as an insertion-ordered association list. -/
def addPoint (d : List (Int × List ℚ)) (ts : Int) (v : ℚ) : List (Int × List ℚ) :=
  match d with
  | [] => [(ts, [v])]
  | (k, vs) :: rest =>
    if k = ts then (k, vs ++ [v]) :: rest else (k, vs) :: addPoint rest ts v

/-- The `timestamp_latencies` dictionary built on lines 197-203 by
iterating over all results and, within each, over its time series. -/
def timestamp_latencies (results : List RunResult) : List (Int × List ℚ) :=
  results.foldl (fun d r => r.timeseries.foldl (fun d p => addPoint d p.1 p.2) d) []

/-- The bucket of latencies recorded for timestamp `ts` (empty when the
timestamp never occurs). -/
def bucketOf (results : List RunResult) (ts : Int) : List ℚ :=
  (((timestamp_latencies results).find? (fun p => p.1 == ts)).map (fun p => p.2)).getD []

/-- Model of `sorted(timestamp_latencies.keys())` (line 206). -/
def sortedTimestamps (results : List RunResult) : List Int :=
  List.insertionSort (· ≤ ·) ((timestamp_latencies results).map (fun p => p.1))

/-- Model of `np.mean` on a list of values, in exact rational arithmetic. -/
def npMean (l : List ℚ) : ℚ :=
  l.sum / l.length

/-- The radicand of `np.std` (default `ddof=0`): the mean squared
deviation from the mean. -/
def npVarPop (l : List ℚ) : ℚ :=
  npMean (l.map (fun x => (x - npMean l) ^ 2))

/-- Model of `np.std`: the square root of the population variance. -/
noncomputable def npStd (l : List ℚ) : ℝ :=
  Real.sqrt (npVarPop l)

/-- The `avg_latencies` list computed on lines 206-212: the mean of each
timestamp's bucket, in sorted timestamp order. -/
def avg_latencies (results : List RunResult) : List ℚ :=
  (sortedTimestamps results).map (fun ts => npMean (bucketOf results ts))

/-- The `std_latencies` list computed on lines 206-213. -/
noncomputable def std_latencies (results : List RunResult) : List ℝ :=
  (sortedTimestamps results).map (fun ts => npStd (bucketOf results ts))

/-- The latency values contributed at timestamp `ts`, independently of the
dictionary: all latencies paired with `ts` across all runs, in traversal
order. -/
def contributionsAt (results : List RunResult) (ts : Int) : List ℚ :=
  ((results.flatMap RunResult.timeseries).filter (fun p => p.1 == ts)).map (fun p => p.2)

/-! ### The startup path of `main` (lines 291-333) -/

/-- The command-line configuration of `main`. -/
structure MainConfig where
  runs : Nat
  script : String
  noPlot : Bool
deriving DecidableEq

/-- Observable actions of `main`. -/
inductive MainAction where
  | printedScriptError
  | chmodScript
  | ranTests
  | savedRawData
  | printedSummary
  | plottedLatency
  | plottedAverage
deriving DecidableEq

/-- Model of `main` (lines 291-333) as a function of whether the configured test
script exists, returning the process exit code and the sequence of actions
performed.  When the script exists, the normal completion path is modelled
(`KeyboardInterrupt` and uncaught exceptions, which also exit with code 1,
are abstracted away); when it does not, lines 303-305 print the error and
call `sys.exit(1)` before anything else runs. -/
def mainProg (scriptExists : Bool) (cfg : MainConfig) : Nat × List MainAction :=
  if !scriptExists then
    (1, [MainAction.printedScriptError])
  else
    (0, [MainAction.chmodScript, MainAction.ranTests, MainAction.savedRawData,
         MainAction.printedSummary] ++
        (if cfg.noPlot then [] else [MainAction.plottedLatency, MainAction.plottedAverage]))

/-- Sample input for the C1 witness: three records out of timestamp order. -/
def c1SampleA : String := "[UPDATE], 300, 7.5\n[UPDATE], 100, 5.5\n[UPDATE], 200, 1.25"

/-- The same three records in a different order. -/
def c1SampleB : String := "[UPDATE], 100, 5.5\n[UPDATE], 200, 1.25\n[UPDATE], 300, 7.5"

/-- Two runs sharing timestamp 100 with identical latencies, for the C2
witness. -/
def c2Sample : List RunResult :=
  [⟨1, [(100, mkRat 2 1)], []⟩, ⟨2, [(100, mkRat 2 1)], []⟩]

/-! ## General lemmas -/

theorem length_filterMap_eq_length_filter {α β : Type*} (f : α → Option β) (l : List α) :
    (l.filterMap f).length = (l.filter (fun x => (f x).isSome)).length := by
  induction l with
  | nil => rfl
  | cons a l ih => cases h : f a <;> simp [List.filterMap_cons, List.filter_cons, h, ih]

theorem filterMap_eq_map_getD_filter {α β : Type*} (f : α → Option β) (d : β) (l : List α) :
    l.filterMap f = (l.filter (fun x => (f x).isSome)).map (fun x => (f x).getD d) := by
  induction l with
  | nil => rfl
  | cons a l ih => cases h : f a <;> simp [List.filterMap_cons, List.filter_cons, h, ih]

instance : IsTotal (Int × ℚ) pairLe :=
  ⟨fun a b => by
    rcases lt_trichotomy a.1 b.1 with h | h | h
    · exact Or.inl (Or.inl h)
    · rcases le_total a.2 b.2 with h2 | h2
      · exact Or.inl (Or.inr ⟨h, h2⟩)
      · exact Or.inr (Or.inr ⟨h.symm, h2⟩)
    · exact Or.inr (Or.inl h)⟩

instance : IsTrans (Int × ℚ) pairLe :=
  ⟨fun a b c hab hbc => by
    rcases hab with h | ⟨h, h2⟩ <;> rcases hbc with h' | ⟨h', h2'⟩
    · exact Or.inl (h.trans h')
    · exact Or.inl (h' ▸ h)
    · exact Or.inl (h ▸ h')
    · exact Or.inr ⟨h.trans h', h2.trans h2'⟩⟩

instance : IsAntisymm (Int × ℚ) pairLe :=
  ⟨fun a b hab hba => by
    rcases hab with h | ⟨h, h2⟩ <;> rcases hba with h' | ⟨h', h2'⟩
    · exact absurd h' (lt_asymm h)
    · exact absurd h (h' ▸ lt_irrefl _)
    · exact absurd h' (h ▸ lt_irrefl _)
    · exact Prod.ext h (le_antisymm h2 h2')⟩

theorem pySort_sorted (l : List (Int × ℚ)) : List.Sorted pairLe (pySort l) :=
  List.sorted_insertionSort pairLe l

theorem pySort_perm (l : List (Int × ℚ)) : (pySort l).Perm l :=
  List.perm_insertionSort pairLe l

theorem pySort_eq_of_perm {l₁ l₂ : List (Int × ℚ)} (h : l₁.Perm l₂) :
    pySort l₁ = pySort l₂ :=
  List.eq_of_perm_of_sorted ((pySort_perm l₁).trans (h.trans (pySort_perm l₂).symm))
    (pySort_sorted l₁) (pySort_sorted l₂)

theorem mem_pySort {l : List (Int × ℚ)} {p : Int × ℚ} : p ∈ pySort l ↔ p ∈ l :=
  (pySort_perm l).mem_iff

/-! ## Claim theorems (error handling and ordering of the extractors) -/

/-- C3: For every input text, records whose numeric fields fail conversion
(`int` on timestamps/elapsed, `float` on latency/throughput) are silently
skipped by `extract_timeseries_data` and `extract_phase_info`, which still
return all remaining well-formed records; both functions are total, so no
exception escapes. -/
theorem extraction_skips_malformed (s : String) :
    (extract_timeseries_data s).length
      = ((findallUpdate s.toList).filter (fun m => (convertUpdate m).isSome)).length
    ∧ (∀ m ∈ findallUpdate s.toList, ∀ p, convertUpdate m = some p →
        p ∈ extract_timeseries_data s)
    ∧ (extract_phase_info s).length
      = ((findallPhase s.toList).filter (fun m => (convertPhase m).isSome)).length
    ∧ (∀ m ∈ findallPhase s.toList, ∀ ph, convertPhase m = some ph →
        ph ∈ extract_phase_info s) := by
  refine ⟨?_, ?_, ?_, ?_⟩
  · rw [extract_timeseries_data, (pySort_perm _).length_eq,
      length_filterMap_eq_length_filter]
  · intro m hm p hp
    exact mem_pySort.mpr (List.mem_filterMap.mpr ⟨m, hm, hp⟩)
  · exact length_filterMap_eq_length_filter _ _
  · intro m hm ph hp
    exact List.mem_filterMap.mpr ⟨m, hm, hp⟩

/-- C10: For every input text, `extract_phase_info` returns the well-formed
phase records exactly in the order in which their matches occur in the
input (the order `findall` scans them); unlike the time-series extraction
it performs no sorting, and indeed some inputs yield a phase list that is
not sorted (here: not by elapsed time). -/
theorem extract_phase_info_input_order (s : String) :
    extract_phase_info s
      = ((findallPhase s.toList).filter (fun m => (convertPhase m).isSome)).map
          (fun m => (convertPhase m).getD ⟨"", 0, 0⟩)
    ∧ ∃ t : String,
        ¬ (extract_phase_info t).Pairwise (fun a b => a.elapsed ≤ b.elapsed) := by
  constructor
  · exact filterMap_eq_map_getD_filter _ _ _
  · refine ⟨"Phase: B, Throughput: 2 ops/sec, Elapsed: 20ms\nPhase: A, Throughput: 1 ops/sec, Elapsed: 10ms", ?_⟩
    decide

/-- C6: If the configured test script does not exist at startup, `main`
prints the error and exits with code 1 immediately: no test run, data
extraction, or output artifact action occurs. -/
theorem missing_script_is_fatal (cfg : MainConfig) :
    (mainProg false cfg).1 = 1
    ∧ (mainProg false cfg).2 = [MainAction.printedScriptError]
    ∧ MainAction.ranTests ∉ (mainProg false cfg).2
    ∧ MainAction.savedRawData ∉ (mainProg false cfg).2
    ∧ MainAction.plottedLatency ∉ (mainProg false cfg).2
    ∧ MainAction.plottedAverage ∉ (mainProg false cfg).2 := by
  refine ⟨rfl, rfl, ?_, ?_, ?_, ?_⟩ <;>
    · rw [show (mainProg false cfg).2 = [MainAction.printedScriptError] from rfl]
      decide

/-! ## Shape of the captured groups -/

theorem matchUpdateAt_groups {s : List Char} {pr : (List Char × List Char) × List Char}
    (h : matchUpdateAt s = some pr) :
    pr.1.1 ≠ [] ∧ pr.1.1.all Char.isDigit ∧ pr.1.2 ≠ [] ∧ pr.1.2.all isDigitDot := by
  unfold matchUpdateAt at h
  split at h
  · exact absurd h (by simp)
  · dsimp only at h
    split at h
    · exact absurd h (by simp)
    · split at h
      · split at h
        · exact absurd h (by simp)
        · injection h with h
          subst h
          exact ⟨by assumption, List.all_eq_true.mpr fun x hx => List.mem_takeWhile_imp hx,
            by assumption, List.all_eq_true.mpr fun x hx => List.mem_takeWhile_imp hx⟩
      · exact absurd h (by simp)

theorem findallUpdateAux_groups (fuel : Nat) :
    ∀ (s : List Char) (m : List Char × List Char), m ∈ findallUpdateAux fuel s →
      m.1 ≠ [] ∧ m.1.all Char.isDigit ∧ m.2 ≠ [] ∧ m.2.all isDigitDot := by
  induction fuel with
  | zero => intro s m h; simp [findallUpdateAux] at h
  | succ fuel ih =>
    intro s m h
    match s with
    | [] => simp [findallUpdateAux] at h
    | c :: cs =>
      rw [findallUpdateAux] at h
      cases hm : matchUpdateAt (c :: cs) with
      | none => rw [hm] at h; exact ih cs m h
      | some pr =>
        rw [hm] at h
        rcases List.mem_cons.mp h with h | h
        · subst h; exact matchUpdateAt_groups hm
        · exact ih pr.2 m h

theorem findallUpdate_groups {s : List Char} {m : List Char × List Char}
    (h : m ∈ findallUpdate s) :
    m.1 ≠ [] ∧ m.1.all Char.isDigit ∧ m.2 ≠ [] ∧ m.2.all isDigitDot :=
  findallUpdateAux_groups s.length s m h

/-! ## Non-negativity of the conversions on regex-shaped strings -/

theorem pyInt_nonneg {l : List Char} {t : Int}
    (hd : l.all Char.isDigit) (h : pyInt l = some t) : 0 ≤ t := by
  unfold pyInt at h
  split at h
  · exact absurd h (by simp)
  · rw [List.all_cons] at hd
    exact absurd (Bool.and_elim_left hd) (by decide)
  · rw [List.all_cons] at hd
    exact absurd (Bool.and_elim_left hd) (by decide)
  · split at h
    · injection h with h
      subst h
      exact Int.natCast_nonneg _
    · simp_all

theorem parseUnsignedFloat_nonneg {l : List Char} {q : ℚ}
    (h : parseUnsignedFloat l = some q) : 0 ≤ q := by
  unfold parseUnsignedFloat at h
  split at h
  · injection h with h
    subst h
    rw [Rat.mkRat_eq_div]
    exact div_nonneg (by positivity) (by positivity)
  · exact absurd h (by simp)

theorem pyFloat_nonneg {l : List Char} {q : ℚ}
    (hd : l.all isDigitDot) (h : pyFloat l = some q) : 0 ≤ q := by
  unfold pyFloat at h
  split at h
  · rw [List.all_cons] at hd
    exact absurd (Bool.and_elim_left hd) (by decide)
  · rw [List.all_cons] at hd
    exact absurd (Bool.and_elim_left hd) (by decide)
  · exact parseUnsignedFloat_nonneg h

/-- C9: Every `(timestamp, latency)` pair returned by
`extract_timeseries_data` has a non-negative timestamp and a non-negative
latency, because the capture groups consist of digit (and dot) characters
only. -/
theorem extract_timeseries_nonneg (s : String) :
    ∀ p ∈ extract_timeseries_data s, 0 ≤ p.1 ∧ 0 ≤ p.2 := by
  intro p hp
  obtain ⟨m, hm, hc⟩ := List.mem_filterMap.mp (mem_pySort.mp hp)
  obtain ⟨-, hd, -, hdd⟩ := findallUpdate_groups hm
  unfold convertUpdate at hc
  split at hc
  · rename_i t l hti htl
    injection hc with hc
    subst hc
    exact ⟨pyInt_nonneg hd hti, pyFloat_nonneg hdd htl⟩
  · exact absurd hc (by simp)

/-- Witness for C9 at a concrete input and pair. -/
theorem extract_timeseries_nonneg_witness :
    (100, mkRat 11 2) ∈ extract_timeseries_data "[UPDATE], 100, 5.5"
    ∧ 0 ≤ ((100, mkRat 11 2) : Int × ℚ).1 ∧ 0 ≤ ((100, mkRat 11 2) : Int × ℚ).2 := by
  have h := extract_timeseries_nonneg "[UPDATE], 100, 5.5" (100, mkRat 11 2) (by decide)
  exact ⟨by decide, h.1, h.2⟩

/-- C1: Whenever every `findall` match of the update-latency pattern in the
input has well-formed numeric fields, `extract_timeseries_data` returns
exactly as many pairs as there are matches, sorted ascending by timestamp,
and the result depends only on the multiset of matches — any input whose
matches are a permutation of these yields the identical output. -/
theorem extract_timeseries_complete_sorted (s : String)
    (h : ∀ m ∈ findallUpdate s.toList, (convertUpdate m).isSome) :
    (extract_timeseries_data s).length = (findallUpdate s.toList).length
    ∧ (extract_timeseries_data s).Pairwise (fun a b => a.1 ≤ b.1)
    ∧ ∀ t : String, (findallUpdate t.toList).Perm (findallUpdate s.toList) →
        extract_timeseries_data t = extract_timeseries_data s := by
  refine ⟨?_, ?_, ?_⟩
  · rw [extract_timeseries_data, (pySort_perm _).length_eq,
      length_filterMap_eq_length_filter, List.filter_eq_self.mpr h]
  · exact (pySort_sorted _).imp fun hab =>
      hab.elim le_of_lt fun he => le_of_eq he.1
  · intro t ht
    exact pySort_eq_of_perm (ht.filterMap convertUpdate)

/-- Witness for C1 on a concrete three-record input and a permutation of it. -/
theorem extract_timeseries_complete_sorted_witness :
    (extract_timeseries_data c1SampleA).length = (findallUpdate c1SampleA.toList).length
    ∧ (extract_timeseries_data c1SampleA).Pairwise (fun a b => a.1 ≤ b.1)
    ∧ extract_timeseries_data c1SampleB = extract_timeseries_data c1SampleA := by
  obtain ⟨h1, h2, h3⟩ := extract_timeseries_complete_sorted c1SampleA (by decide)
  exact ⟨h1, h2, h3 c1SampleB (by decide)⟩

/-! ## Characterization of the `run_all_tests` loop -/

theorem runAllGo_results (n : Nat) (ocs : List RunOutcome) :
    ∀ i, (runAllGo n i ocs).1 = (ocs.enumFrom i).filterMap (fun p => runEntry p.1 p.2) := by
  induction ocs with
  | nil => intro i; rfl
  | cons oc rest ih =>
    intro i
    simp only [runAllGo, List.enumFrom_cons, List.filterMap_cons]
    cases hr : run_single_test oc with
    | none => simp [runEntry, hr, ih (i + 1)]
    | some out =>
      by_cases hts : (extract_timeseries_data out).isEmpty <;>
        simp [runEntry, hr, hts, ih (i + 1)]

theorem runAllGo_trace (n : Nat) (ocs : List RunOutcome) :
    ∀ i, (runAllGo n i ocs).2 = (ocs.enumFrom i).flatMap (perRunEvents n) := by
  induction ocs with
  | nil => intro i; rfl
  | cons oc rest ih =>
    intro i
    simp only [runAllGo, List.enumFrom_cons, List.flatMap_cons]
    cases hr : run_single_test oc with
    | none => simp [perRunEvents, hr, ih (i + 1)]
    | some out =>
      by_cases hts : (extract_timeseries_data out).isEmpty <;>
        simp [perRunEvents, hr, hts, ih (i + 1)]

theorem run_all_tests_results_eq (outcomes : List RunOutcome) :
    (run_all_tests outcomes).1 = outcomes.enum.filterMap (fun p => runEntry p.1 p.2) :=
  runAllGo_results outcomes.length outcomes 0

theorem run_all_tests_trace_eq (outcomes : List RunOutcome) :
    (run_all_tests outcomes).2 = outcomes.enum.flatMap (perRunEvents outcomes.length) :=
  runAllGo_trace outcomes.length outcomes 0

theorem runEntry_inv {i : Nat} {oc : RunOutcome} {r : RunResult}
    (h : runEntry i oc = some r) :
    ∃ out, run_single_test oc = some out ∧ r.run_id = i + 1
      ∧ r.timeseries = extract_timeseries_data out
      ∧ r.phases = extract_phase_info out
      ∧ r.timeseries ≠ [] := by
  unfold runEntry at h
  cases hout : run_single_test oc with
  | none => rw [hout] at h; exact absurd h (by simp)
  | some out =>
    rw [hout] at h
    dsimp only at h
    split at h
    · exact absurd h (by simp)
    · rename_i hts
      injection h with h
      subst h
      exact ⟨out, rfl, rfl, rfl, rfl, by simpa [List.isEmpty_iff] using hts⟩

theorem runTest_mem_perRunEvents (n : Nat) (p : Nat × RunOutcome) :
    Event.runTest p.1 ∈ perRunEvents n p := by
  unfold perRunEvents
  split <;> simp

theorem runTest_mem_trace {outcomes : List RunOutcome} {j : Nat}
    (hj : j < outcomes.length) :
    Event.runTest j ∈ (run_all_tests outcomes).2 := by
  rw [run_all_tests_trace_eq]
  exact List.mem_flatMap.mpr ⟨(j, outcomes[j]),
    List.mk_mem_enum_iff_getElem?.mpr (List.getElem?_eq_getElem hj),
    runTest_mem_perRunEvents _ _⟩

theorem runEntry_none_not_in_results {outcomes : List RunOutcome} {i : Nat}
    {oc : RunOutcome} (h1 : outcomes[i]? = some oc) (hE : runEntry i oc = none) :
    ∀ r ∈ (run_all_tests outcomes).1, r.run_id ≠ i + 1 := by
  intro r hr hid
  rw [run_all_tests_results_eq] at hr
  obtain ⟨⟨j, oc'⟩, hp, he⟩ := List.mem_filterMap.mp hr
  obtain ⟨out, -, hrid, -, -, -⟩ := runEntry_inv he
  have hij : j = i := by omega
  subst hij
  rw [List.mk_mem_enum_iff_getElem?, h1] at hp
  injection hp with hp
  subst hp
  rw [hE] at he
  exact absurd he (by simp)

theorem flatMap_singleton_map {α β : Type*} (g : α → β) (l : List α) :
    l.flatMap (fun a => [g a]) = l.map g := by
  induction l with
  | nil => rfl
  | cons a l ih => simp [ih]

theorem pairwise_filterMap_of_pairwise {α β : Type*} {R : α → α → Prop}
    {S : β → β → Prop} (f : α → Option β)
    (H : ∀ a a', R a a' → ∀ b, f a = some b → ∀ b', f a' = some b' → S b b') :
    ∀ {l : List α}, l.Pairwise R → (l.filterMap f).Pairwise S := by
  intro l hl
  induction hl with
  | nil => simp
  | @cons a l ha _ ih =>
    rw [List.filterMap_cons]
    cases hfa : f a with
    | none => exact ih
    | some b =>
      refine List.Pairwise.cons ?_ ih
      intro b' hb'
      obtain ⟨a', ha', hfa'⟩ := List.mem_filterMap.mp hb'
      exact H a a' (ha a' ha') b hfa b' hfa'

theorem pairwise_fst_lt_enumFrom {α : Type*} (l : List α) :
    ∀ i, (l.enumFrom i).Pairwise (fun p q => p.1 < q.1) := by
  induction l with
  | nil => intro i; simp
  | cons a l ih =>
    intro i
    rw [List.enumFrom_cons]
    refine List.Pairwise.cons ?_ (ih (i + 1))
    intro q hq
    have := (List.mk_mem_enumFrom_iff_le_and_getElem?_sub.mp
      (show (q.1, q.2) ∈ l.enumFrom (i + 1) from hq)).1
    omega

/-- C8: Every entry appended to `self.results` has a non-empty time series;
the `run_id` values are strictly increasing in append order; and each
`run_id` is the 1-based index of the run that produced the entry (its data
was extracted from the captured output of outcome `run_id - 1`). -/
theorem results_entries_invariant (outcomes : List RunOutcome) :
    (∀ r ∈ (run_all_tests outcomes).1, r.timeseries ≠ [])
    ∧ ((run_all_tests outcomes).1.map RunResult.run_id).Pairwise (· < ·)
    ∧ ∀ r ∈ (run_all_tests outcomes).1, ∃ oc out,
        outcomes[r.run_id - 1]? = some oc
        ∧ run_single_test oc = some out
        ∧ r.timeseries = extract_timeseries_data out
        ∧ r.phases = extract_phase_info out := by
  refine ⟨?_, ?_, ?_⟩
  · intro r hr
    rw [run_all_tests_results_eq] at hr
    obtain ⟨p, -, he⟩ := List.mem_filterMap.mp hr
    obtain ⟨-, -, -, -, -, hne⟩ := runEntry_inv he
    exact hne
  · rw [run_all_tests_results_eq, List.pairwise_map]
    refine pairwise_filterMap_of_pairwise _ ?_ (pairwise_fst_lt_enumFrom outcomes 0)
    intro p p' hlt r hr r' hr'
    obtain ⟨-, -, hid, -, -, -⟩ := runEntry_inv hr
    obtain ⟨-, -, hid', -, -, -⟩ := runEntry_inv hr'
    omega
  · intro r hr
    rw [run_all_tests_results_eq] at hr
    obtain ⟨⟨j, oc⟩, hp, he⟩ := List.mem_filterMap.mp hr
    obtain ⟨out, hout, hid, hts, hph, -⟩ := runEntry_inv he
    refine ⟨oc, out, ?_, hout, hts, hph⟩
    have : r.run_id - 1 = j := by omega
    rw [this]
    exact List.mk_mem_enum_iff_getElem?.mp hp

/-- C4: A run whose captured output contains no matching update-latency
record is logged as producing no time-series data, contributes no entry to
`self.results` (the list that plotting and the summary statistics consume),
and every other run is still processed. -/
theorem no_data_run_recorded_and_excluded (outcomes : List RunOutcome) (i : Nat)
    (oc : RunOutcome) (out : String)
    (h1 : outcomes[i]? = some oc)
    (h2 : run_single_test oc = some out)
    (h3 : extract_timeseries_data out = []) :
    Event.printedNoData i ∈ (run_all_tests outcomes).2
    ∧ (∀ r ∈ (run_all_tests outcomes).1, r.run_id ≠ i + 1)
    ∧ ∀ j < outcomes.length, Event.runTest j ∈ (run_all_tests outcomes).2 := by
  refine ⟨?_, ?_, fun j hj => runTest_mem_trace hj⟩
  · rw [run_all_tests_trace_eq]
    refine List.mem_flatMap.mpr ⟨(i, oc), List.mk_mem_enum_iff_getElem?.mpr h1, ?_⟩
    simp [perRunEvents, h2, h3]
  · exact runEntry_none_not_in_results h1 (by simp [runEntry, h2, h3])

/-- Witness for C4: a single run completes successfully but its output has
no matching records; it is logged as "no data" and excluded from results. -/
theorem no_data_run_witness :
    Event.printedNoData 0 ∈
      (run_all_tests [RunOutcome.completed 0 "no records here" ""]).2
    ∧ (∀ r ∈ (run_all_tests [RunOutcome.completed 0 "no records here" ""]).1,
        r.run_id ≠ 0 + 1)
    ∧ ∀ j < ([RunOutcome.completed 0 "no records here" ""] : List RunOutcome).length,
        Event.runTest j ∈ (run_all_tests [RunOutcome.completed 0 "no records here" ""]).2 :=
  no_data_run_recorded_and_excluded [RunOutcome.completed 0 "no records here" ""] 0
    (RunOutcome.completed 0 "no records here" "") "no records here"
    (by decide) (by decide) (by decide)

/-- C5: A run whose invocation fails (non-zero return code), times out, or
raises produces `None` from `run_single_test`; `run_all_tests` appends
nothing to `self.results` for it and still processes every run. -/
theorem failed_run_skipped (outcomes : List RunOutcome) (i : Nat) (oc : RunOutcome)
    (h1 : outcomes[i]? = some oc)
    (h2 : (∃ rc out err, oc = RunOutcome.completed rc out err ∧ rc ≠ 0)
          ∨ oc = RunOutcome.timedOut ∨ oc = RunOutcome.raised) :
    run_single_test oc = none
    ∧ (∀ r ∈ (run_all_tests outcomes).1, r.run_id ≠ i + 1)
    ∧ ∀ j < outcomes.length, Event.runTest j ∈ (run_all_tests outcomes).2 := by
  have hnone : run_single_test oc = none := by
    rcases h2 with ⟨rc, sout, serr, rfl, hrc⟩ | rfl | rfl
    · simp [run_single_test, hrc]
    · rfl
    · rfl
  exact ⟨hnone,
    runEntry_none_not_in_results h1 (by simp [runEntry, hnone]),
    fun j hj => runTest_mem_trace hj⟩

/-- Witness for C5: the first of two runs times out and is skipped while
the second still executes. -/
theorem failed_run_skipped_witness :
    run_single_test RunOutcome.timedOut = none
    ∧ (∀ r ∈ (run_all_tests [RunOutcome.timedOut,
          RunOutcome.completed 0 "[UPDATE], 100, 5.5" ""]).1, r.run_id ≠ 0 + 1)
    ∧ ∀ j < ([RunOutcome.timedOut,
          RunOutcome.completed 0 "[UPDATE], 100, 5.5" ""] : List RunOutcome).length,
        Event.runTest j ∈ (run_all_tests [RunOutcome.timedOut,
          RunOutcome.completed 0 "[UPDATE], 100, 5.5" ""]).2 :=
  failed_run_skipped [RunOutcome.timedOut, RunOutcome.completed 0 "[UPDATE], 100, 5.5" ""]
    0 RunOutcome.timedOut (by decide) (Or.inr (Or.inl rfl))

/-- C7 counterexample: the claim asserts a 10-second delay between every
pair of consecutive runs, but when the first of two runs fails (here: times
out) the `continue` on line 104 skips the sleep, so the trace contains no
sleep event at all. -/
theorem no_sleep_between_runs_when_first_fails :
    (run_all_tests [RunOutcome.timedOut,
        RunOutcome.completed 0 "[UPDATE], 100, 5.5" ""]).2
      = [Event.runTest 0, Event.runTest 1, Event.printedCompleted 1 1]
    ∧ Event.slept 10 ∉ (run_all_tests [RunOutcome.timedOut,
        RunOutcome.completed 0 "[UPDATE], 100, 5.5" ""]).2 := by
  constructor <;> decide

/-- C7 (amended): `run_all_tests` is strictly sequential — the trace is the
concatenation, in index order, of each run's own events, and the run
invocations occur exactly in order `0, …, n-1`; a 10-second sleep is
inserted after exactly those runs whose output was captured (not `None`)
and that are not the final run.  In particular no sleep follows the final
run, and — contrary to the original claim — none follows a failed or
timed-out run either. -/
theorem run_all_tests_sequential (outcomes : List RunOutcome) :
    (run_all_tests outcomes).2 = outcomes.enum.flatMap (perRunEvents outcomes.length)
    ∧ (run_all_tests outcomes).2.filterMap (fun e => match e with
        | Event.runTest i => some i
        | _ => none) = List.range outcomes.length
    ∧ ∀ p : Nat × RunOutcome,
        (Event.slept 10 ∈ perRunEvents outcomes.length p
          ↔ p.1 < outcomes.length - 1 ∧ (run_single_test p.2).isSome) := by
  refine ⟨run_all_tests_trace_eq outcomes, ?_, ?_⟩
  · rw [run_all_tests_trace_eq, List.filterMap_flatMap]
    have hfrag : ∀ p : Nat × RunOutcome,
        (perRunEvents outcomes.length p).filterMap (fun e => match e with
          | Event.runTest i => some i
          | _ => none) = [p.1] := by
      intro p
      unfold perRunEvents
      cases run_single_test p.2 with
      | none => rfl
      | some out =>
        by_cases hts : (extract_timeseries_data out).isEmpty <;>
          by_cases hn : p.1 < outcomes.length - 1 <;>
          simp [hts, hn, List.filterMap_cons]
    simp only [hfrag]
    rw [flatMap_singleton_map]
    exact List.enum_map_fst outcomes
  · intro p
    unfold perRunEvents
    cases hr : run_single_test p.2 with
    | none => simp
    | some out =>
      by_cases hts : (extract_timeseries_data out).isEmpty <;>
        by_cases hn : p.1 < outcomes.length - 1 <;>
          simp [hts, hn]

/-! ## The timestamp buckets of `plot_average_latency` -/

theorem lookupB_addPoint (k ts : Int) (v : ℚ) :
    ∀ d : List (Int × List ℚ),
      (((addPoint d k v).find? (fun p => p.1 == ts)).map (fun p => p.2)).getD []
        = ((d.find? (fun p => p.1 == ts)).map (fun p => p.2)).getD []
          ++ (if k = ts then [v] else []) := by
  intro d
  induction d with
  | nil => by_cases h : k = ts <;> simp [addPoint, List.find?_cons, h]
  | cons a d ih =>
    obtain ⟨ak, avs⟩ := a
    by_cases hak : ak = k
    · subst hak
      by_cases hts : ak = ts <;> simp [addPoint, List.find?_cons, hts]
    · by_cases hts : ak = ts
      · subst hts
        simp [addPoint, hak, List.find?_cons, Ne.symm hak]
      · simp [addPoint, hak, List.find?_cons, hts, ih]

theorem lookupB_foldl_points (ts : Int) :
    ∀ (pts : List (Int × ℚ)) (d : List (Int × List ℚ)),
      (((pts.foldl (fun d p => addPoint d p.1 p.2) d).find? (fun p => p.1 == ts)).map
          (fun p => p.2)).getD []
        = ((d.find? (fun p => p.1 == ts)).map (fun p => p.2)).getD []
          ++ ((pts.filter (fun p => p.1 == ts)).map (fun p => p.2)) := by
  intro pts
  induction pts with
  | nil => simp
  | cons p pts ih =>
    intro d
    rw [List.foldl_cons, ih, lookupB_addPoint]
    by_cases h : p.1 = ts <;> simp [List.filter_cons, h, List.append_assoc]

theorem lookupB_foldl_results (ts : Int) :
    ∀ (results : List RunResult) (d : List (Int × List ℚ)),
      (((results.foldl
            (fun d r => r.timeseries.foldl (fun d p => addPoint d p.1 p.2) d) d).find?
          (fun p => p.1 == ts)).map (fun p => p.2)).getD []
        = ((d.find? (fun p => p.1 == ts)).map (fun p => p.2)).getD []
          ++ contributionsAt results ts := by
  intro results
  induction results with
  | nil => simp [contributionsAt]
  | cons r rs ih =>
    intro d
    rw [List.foldl_cons, ih, lookupB_foldl_points]
    simp [contributionsAt, List.append_assoc]

/-- The bucket the `timestamp_latencies` dictionary holds for `ts` is
exactly the list of latencies contributed at `ts`, in traversal order. -/
theorem bucketOf_eq_contributionsAt (results : List RunResult) (ts : Int) :
    bucketOf results ts = contributionsAt results ts := by
  have h := lookupB_foldl_results ts results []
  simpa [bucketOf, timestamp_latencies] using h

theorem ts_mem_keys_of_contrib_ne {results : List RunResult} {ts : Int}
    (h : contributionsAt results ts ≠ []) :
    ts ∈ (timestamp_latencies results).map (fun p => p.1) := by
  by_contra hmem
  have hfind : (timestamp_latencies results).find? (fun p => p.1 == ts) = none := by
    rw [List.find?_eq_none]
    intro p hp
    simp only [beq_iff_eq]
    intro heq
    exact hmem (heq ▸ List.mem_map_of_mem _ hp)
  have hempty : bucketOf results ts = [] := by simp [bucketOf, hfind]
  rw [bucketOf_eq_contributionsAt] at hempty
  exact h hempty

/-! ## `np.mean` and `np.std` on constant samples -/

theorem npMean_const {l : List ℚ} {c : ℚ} (hne : l ≠ []) (h : ∀ v ∈ l, v = c) :
    npMean l = c := by
  have hl : l = List.replicate l.length c := List.eq_replicate_length.mpr h
  rw [npMean, hl, List.sum_replicate, List.length_replicate, nsmul_eq_mul,
    mul_div_cancel_left₀]
  exact Nat.cast_ne_zero.mpr (by simpa [List.length_eq_zero] using hne)

theorem npVarPop_const {l : List ℚ} {c : ℚ} (hne : l ≠ []) (h : ∀ v ∈ l, v = c) :
    npVarPop l = 0 := by
  have hm : npMean l = c := npMean_const hne h
  refine npMean_const (by simpa using hne) ?_
  intro w hw
  obtain ⟨x, hx, rfl⟩ := List.mem_map.mp hw
  rw [h x hx, hm, sub_self]
  exact zero_pow (by norm_num)

theorem npStd_const {l : List ℚ} {c : ℚ} (hne : l ≠ []) (h : ∀ v ∈ l, v = c) :
    npStd l = 0 := by
  rw [npStd, npVarPop_const hne h]
  simp

/-- C2: For every timestamp with at least one contributing latency value
(in particular every timestamp shared by several runs), the averaged series
of `plot_average_latency` carries, at that timestamp's position, exactly
the arithmetic mean of all contributing values, and the reported standard
deviation there is `0` whenever all contributing values are identical. -/
theorem plot_average_latency_mean_and_std (results : List RunResult) (ts : Int)
    (h : contributionsAt results ts ≠ []) :
    ∃ k : ℕ, (sortedTimestamps results)[k]? = some ts
      ∧ (avg_latencies results)[k]?
          = some ((contributionsAt results ts).sum / (contributionsAt results ts).length)
      ∧ ∀ c, (∀ v ∈ contributionsAt results ts, v = c) →
          (std_latencies results)[k]? = some 0 := by
  have hmem : ts ∈ sortedTimestamps results :=
    (List.perm_insertionSort _ _).mem_iff.mpr (ts_mem_keys_of_contrib_ne h)
  obtain ⟨k, hk⟩ := List.mem_iff_getElem?.mp hmem
  refine ⟨k, hk, ?_, ?_⟩
  · rw [avg_latencies, List.getElem?_map, hk]
    simp [npMean, bucketOf_eq_contributionsAt results ts]
  · intro c hc
    rw [std_latencies, List.getElem?_map, hk, Option.map_some']
    rw [bucketOf_eq_contributionsAt, npStd_const h hc]

/-- Witness for C2 on two concrete runs sharing a timestamp with identical
latency values. -/
theorem plot_average_latency_mean_and_std_witness :
    contributionsAt c2Sample 100 ≠ []
    ∧ ∃ k : ℕ, (sortedTimestamps c2Sample)[k]? = some 100
      ∧ (avg_latencies c2Sample)[k]?
          = some ((contributionsAt c2Sample 100).sum / (contributionsAt c2Sample 100).length)
      ∧ (std_latencies c2Sample)[k]? = some 0 := by
  refine ⟨by decide, ?_⟩
  obtain ⟨k, h1, h2, h3⟩ := plot_average_latency_mean_and_std c2Sample 100 (by decide)
  exact ⟨k, h1, h2, h3 (mkRat 2 1) (by decide)⟩

end AnalyzeLatency
